import Mathlib

/-!
Verification of the fluxofacil-bpo specification against the source.

The development shallowly embeds the parts of the repository that the
claims are about:

1. the SQL stored procedures of the custom-auth scheme
   (final versions: migration 20250808164748 for register_user and
   authenticate_user, migration 20250819034136 for update_user_password
   and verify_user_password);
2. the installment expansion and read-time status display of
   FinancialDashboard.tsx;
3. the chart aggregation pipeline of the chart analytics component;
4. the currency input formatter and parser of currencyFormatter.ts.

Cryptographic primitives (md5, crypt, gen_salt) are external to the
repository and are taken as function parameters; the bcrypt facts the
claims rely on (a crypt output starts with a dollar sign, crypt of the
same text against its own output reproduces the output) appear as
explicit hypotheses.  Machine numbers are idealized as Nat and Rat.
-/

/-! ## The profiles table

Columns used by the stored procedures: id, cnpj (unique tax identifier),
company_name, password_hash (nullable since the migration that dropped
NOT NULL to support managed auth), user_id (nullable link to the managed
auth identity).  UUID values are modelled as Nat.  The table is a list of
rows; SELECT ... LIMIT 1 is the first matching row. -/

structure Profile where
  id : Nat
  cnpj : String
  company_name : String
  password_hash : Option String
  user_id : Option Nat
deriving Repr, DecidableEq

abbrev ProfilesTable := List Profile

/-- Lookup used by authenticate_user:
SELECT ... FROM profiles WHERE cnpj = cnpj_input LIMIT 1. -/
def findByCnpj (db : ProfilesTable) (cnpj_input : String) : Option Profile :=
  db.find? (fun p => p.cnpj == cnpj_input)

/-- The salted message every hash in this scheme is computed over:
password_input followed by cnpj_input followed by the static salt. -/
def saltedInput (password_input cnpj_input : String) : String :=
  password_input ++ cnpj_input ++ "bpo_salt"

/-- The SQL test password_hash LIKE a dollar sign followed by percent:
the stored hash begins with a dollar character. -/
def likeDollarPrefix (s : String) : Bool :=
  match s.data with
  | [] => false
  | c :: _ => c == '$'

/-- Embedding of public.authenticate_user, final version
(migration 20250808164748, lines 45-88).  Inputs beyond the SQL
arguments: md5f and cryptf stand for the pgcrypto md5 and crypt
functions, bfSalt for the value of gen_salt with the bf algorithm at
this call.  The result is the returned row set paired with the table
after the side effect (the transparent bcrypt upgrade on a successful
legacy match).  A NULL stored hash fails the LIKE test and the legacy
equality test under the three-valued SQL logic, so it never
authenticates; updated_at is not modelled (time plays no role in the
claims). -/
def authenticate_user (md5f : String → String) (cryptf : String → String → String)
    (bfSalt : String) (db : ProfilesTable) (cnpj_input password_input : String) :
    List (Nat × String × String) × ProfilesTable :=
  match findByCnpj db cnpj_input with
  | none => ([], db)
  | some prof =>
    match prof.password_hash with
    | some h =>
      if likeDollarPrefix h then
        if cryptf (saltedInput password_input cnpj_input) h == h then
          ([(prof.id, prof.cnpj, prof.company_name)], db)
        else ([], db)
      else
        if md5f (saltedInput password_input cnpj_input) == h then
          ([(prof.id, prof.cnpj, prof.company_name)],
           db.map (fun q =>
             if q.id == prof.id then
               { q with password_hash := some (cryptf (saltedInput password_input cnpj_input) bfSalt) }
             else q))
        else ([], db)
    | none => ([], db)

/-- Embedding of public.register_user, final version
(migration 20250808164748, lines 17-42).  newId stands for the value of
gen_random_uuid at this call.  RAISE EXCEPTION is an error result; since
the exception aborts the statement, the table is returned unchanged in
that case. -/
def register_user (cryptf : String → String → String) (bfSalt : String) (newId : Nat)
    (db : ProfilesTable) (cnpj_input company_name_input password_input : String) :
    Except String Nat × ProfilesTable :=
  if db.any (fun p => p.cnpj == cnpj_input) then
    (Except.error "CNPJ já cadastrado", db)
  else
    (Except.ok newId,
     db ++ [{ id := newId, cnpj := cnpj_input, company_name := company_name_input,
              password_hash := some (cryptf (saltedInput password_input cnpj_input) bfSalt),
              user_id := none }])

/-- Lookup shared by the final update_user_password and
verify_user_password (migration 20250819034136):
WHERE cnpj = cnpj_input AND (user_id = user_id_input OR user_id IS NULL
OR id = user_id_input) LIMIT 1. -/
def findForPassword (db : ProfilesTable) (user_id_input : Nat) (cnpj_input : String) :
    Option Profile :=
  db.find? (fun p =>
    p.cnpj == cnpj_input &&
      (p.user_id == some user_id_input || p.user_id == none || p.id == user_id_input))

/-- Embedding of public.update_user_password, final version
(migration 20250819034136, lines 2-47).  Returns the boolean result and
the table after the UPDATE.  On success the stored hash becomes a fresh
bcrypt hash of the new password and user_id becomes
COALESCE(user_id, user_id_input). -/
def update_user_password (md5f : String → String) (cryptf : String → String → String)
    (bfSalt : String) (db : ProfilesTable) (user_id_input : Nat)
    (current_password_input new_password_input cnpj_input : String) :
    Bool × ProfilesTable :=
  match findForPassword db user_id_input cnpj_input with
  | none => (false, db)
  | some prof =>
    let ok : Bool :=
      match prof.password_hash with
      | some h =>
        if likeDollarPrefix h then
          cryptf (saltedInput current_password_input cnpj_input) h == h
        else
          md5f (saltedInput current_password_input cnpj_input) == h
      | none => true
    if ok then
      (true,
       db.map (fun q =>
         if q.id == prof.id then
           { q with
             password_hash := some (cryptf (saltedInput new_password_input cnpj_input) bfSalt),
             user_id := q.user_id.orElse (fun _ => some user_id_input) }
         else q))
    else (false, db)

/-- Embedding of public.verify_user_password, final version
(migration 20250819034136, lines 50-79).  The SQL function RETURNs the
raw comparison, which is NULL when the stored hash is NULL; the result
is therefore an Option Bool with none for the SQL NULL. -/
def verify_user_password (md5f : String → String) (db : ProfilesTable)
    (user_id_input : Nat) (password_input cnpj_input : String)
    (cryptf : String → String → String) : Option Bool :=
  match findForPassword db user_id_input cnpj_input with
  | none => some false
  | some prof =>
    match prof.password_hash with
    | some h =>
      if likeDollarPrefix h then
        some (cryptf (saltedInput password_input cnpj_input) h == h)
      else
        some (md5f (saltedInput password_input cnpj_input) == h)
    | none => none

/-- Verification policy as the claim states it, written from the claim
text for comparison with the embedded code: the stored hash exists; if
it begins with a dollar sign the crypt comparison against the stored
hash must match it, otherwise the md5 recomputation must equal it. -/
def claimCredentialsOk (md5f : String → String) (cryptf : String → String → String)
    (cnpj_input password_input : String) (stored : Option String) : Prop :=
  ∃ h, stored = some h ∧
    (if likeDollarPrefix h then cryptf (saltedInput password_input cnpj_input) h = h
     else md5f (saltedInput password_input cnpj_input) = h)

instance (md5f : String → String) (cryptf : String → String → String)
    (c pw : String) (stored : Option String) :
    Decidable (claimCredentialsOk md5f cryptf c pw stored) := by
  unfold claimCredentialsOk
  cases stored with
  | none => exact isFalse (by rintro ⟨h, hh, _⟩; cases hh)
  | some h =>
    by_cases hcase : (if likeDollarPrefix h then cryptf (saltedInput pw c) h = h
        else md5f (saltedInput pw c) = h)
    · exact isTrue ⟨h, rfl, hcase⟩
    · exact isFalse (by rintro ⟨h2, hh2, hc2⟩; cases hh2; exact hcase hc2)

/-! ## Calendar dates

The client handles dates as ISO YYYY-MM-DD strings parsed into JS Date
values.  A date is modelled as a year, a month in 1..12 and a day in
1..31; comparison of well-formed ISO strings coincides with
lexicographic comparison of these triples.  The embedding assumes the
local-midnight timestamp built by appending T00:00:00 renders back to
the same calendar date in ISO form (true for the non-positive UTC
offsets the application targets). -/

structure Date where
  year : Nat
  month : Nat
  day : Nat
deriving Repr, DecidableEq

/-- Lexicographic comparison of dates, the order JS string comparison
of YYYY-MM-DD strings induces. -/
def Date.le (a b : Date) : Bool :=
  a.year < b.year ||
    (a.year == b.year && (a.month < b.month ||
      (a.month == b.month && a.day ≤ b.day)))

/-- Days in a month, with the Gregorian leap rule for February. -/
def daysInMonth (y m : Nat) : Nat :=
  if m == 2 then
    if y % 4 == 0 && (y % 100 != 0 || y % 400 == 0) then 29 else 28
  else if m == 4 || m == 6 || m == 9 || m == 11 then 30
  else 31

/-- Embedding of the month increment of handleSubmit: a fresh Date at
the base due date, then setMonth(getMonth() + i).  JS setMonth adds to
the month index, carrying into the year, and normalizes a day that
exceeds the target month length by rolling the excess into the next
month (the excess is at most 3 days, so one carry suffices). -/
def jsAddMonths (base : Date) (i : Nat) : Date :=
  let idx := base.year * 12 + (base.month - 1) + i
  let y := idx / 12
  let m := idx % 12 + 1
  if base.day ≤ daysInMonth y m then
    { year := y, month := m, day := base.day }
  else
    let idx2 := idx + 1
    { year := idx2 / 12, month := idx2 % 12 + 1, day := base.day - daysInMonth y m }

/-! ## Transaction entry (FinancialDashboard.handleSubmit) -/

/-- A row as built by handleSubmit for insertion into the transactions
table.  Amounts are idealized as rationals. -/
structure InsertRow where
  user_id : Nat
  type : String
  description : String
  amount : Rat
  payment_method : String
  installments : Nat
  current_installment : Nat
  due_date : Date
  category : String
  status : String
deriving Repr, DecidableEq

/-- The loop of handleSubmit for the installment branch
(FinancialDashboard.tsx lines 119-139): for i in 0..count-1 push a row
with current_installment i+1 and due date base advanced by i months. -/
def buildInstallments (userId : Nat) (ty desc : String) (amount : Rat)
    (installmentCount : Nat) (base : Date) (category : String) : List InsertRow :=
  (List.range installmentCount).map (fun i =>
    { user_id := userId, type := ty, description := desc, amount := amount,
      payment_method := "parcelado", installments := installmentCount,
      current_installment := i + 1, due_date := jsAddMonths base i,
      category := category, status := "pendente" })

/-- The rows handleSubmit inserts (FinancialDashboard.tsx lines
115-190): installmentCount is the parsed installment count when the
payment method is parcelado and 1 otherwise; more than one installment
expands into buildInstallments, otherwise a single row is inserted with
the chosen due date unchanged. -/
def handleSubmitRows (userId : Nat) (ty desc : String) (amount : Rat)
    (paymentMethod : String) (installmentsField : Nat) (base : Date)
    (category : String) : List InsertRow :=
  let installmentCount := if paymentMethod == "parcelado" then installmentsField else 1
  if installmentCount > 1 then
    buildInstallments userId ty desc amount installmentCount base category
  else
    [{ user_id := userId, type := ty, description := desc, amount := amount,
       payment_method := paymentMethod, installments := 1,
       current_installment := 1, due_date := base,
       category := category, status := "pendente" }]

/-! ## Read-time status display (FinancialDashboard.loadTransactions) -/

/-- The fields of a loaded transaction that the status display touches
or preserves. -/
structure LoadedTransaction where
  id : Nat
  type : String
  description : String
  amount : Rat
  due_date : Date
  category : String
  status : String
deriving Repr, DecidableEq

/-- The per-row map of loadTransactions (FinancialDashboard.tsx lines
85-92): spread the row and recompute status as vencido when the due
date compares at or before today and the stored status is pendente. -/
def displayTransaction (today : Date) (t : LoadedTransaction) : LoadedTransaction :=
  { t with status :=
      if Date.le t.due_date today && t.status == "pendente" then "vencido"
      else t.status }

/-- loadTransactions maps displayTransaction over the rows read from
the database and stores the result in UI state only; no write is issued
back to the transactions table. -/
def displayTransactions (today : Date) (rows : List LoadedTransaction) :
    List LoadedTransaction :=
  rows.map (displayTransaction today)

/-! ## Chart aggregation (chart analytics component)

Embedding of the chartData pipeline: filter by type, category and
description, keep transactions whose chosen date falls in the range,
group by calendar day accumulating entrada and saida sums in insertion
order, then sort by date.  A JS timestamp is a calendar day paired with
a rank of the time within the day; comparison is lexicographic. -/

abbrev DateTime := Date × Nat

/-- Lexicographic comparison of timestamps, matching JS Date
comparison within one calendar. -/
def DateTime.le (a b : DateTime) : Bool :=
  (a.1 == b.1 && a.2 ≤ b.2) ||
    (Date.le a.1 b.1 && !(a.1 == b.1))

/-- A transaction as the chart component receives it.  due_date is none
when the stored string is empty (the code tests falsiness before
parsing); created_at and creation_date are optional timestamps. -/
structure ChartTransaction where
  type : String
  description : String
  category : String
  amount : Rat
  due_date : Option Date
  created_at : Option DateTime
  creation_date : Option DateTime
deriving Repr, DecidableEq

/-- getTxnDate of the chart component: for the due_date field, the due
date at local midnight; otherwise created_at with creation_date as
fallback. -/
def getTxnDate (dateField : String) (t : ChartTransaction) : Option DateTime :=
  if dateField == "due_date" then
    t.due_date.map (fun d => (d, 0))
  else
    t.created_at.orElse (fun _ => t.creation_date)

/-- The grouping key: for the due_date field the code uses the raw
due_date string, otherwise formatYMDLocal of the parsed timestamp; both
are the calendar-day component of getTxnDate. -/
def dayKey (dateField : String) (t : ChartTransaction) : Option Date :=
  (getTxnDate dateField t).map Prod.fst

/-- The filters applied before aggregation: type (ambos passes all),
category (todas passes all), description (todas passes all), and the
chosen date in [start, endT]. -/
def chartFiltered (dateField typeFilter categoryFilter descriptionFilter : String)
    (startT endT : DateTime) (txs : List ChartTransaction) : List ChartTransaction :=
  (((txs.filter (fun t => typeFilter == "ambos" || t.type == typeFilter)).filter
      (fun t => categoryFilter == "todas" || t.category == categoryFilter)).filter
      (fun t => descriptionFilter == "todas" || t.description == descriptionFilter)).filter
      (fun t => match getTxnDate dateField t with
        | some d => DateTime.le startT d && DateTime.le d endT
        | none => false)

/-- One point of the chart series. -/
structure ChartPoint where
  date : Date
  entrada : Rat
  saida : Rat
deriving Repr, DecidableEq

/-- One step of the aggregation loop: look up the key in the insertion
ordered association list, create a zero point at the end when absent,
then add the amount to the entrada bucket for type entrada and to the
saida bucket otherwise. -/
def addToAgg (acc : List ChartPoint) (day : Date) (isEntrada : Bool) (amount : Rat) :
    List ChartPoint :=
  match acc with
  | [] =>
    if isEntrada then [{ date := day, entrada := amount, saida := 0 }]
    else [{ date := day, entrada := 0, saida := amount }]
  | p :: rest =>
    if p.date == day then
      (if isEntrada then { p with entrada := p.entrada + amount }
       else { p with saida := p.saida + amount }) :: rest
    else p :: addToAgg rest day isEntrada amount

/-- The aggregation loop over the filtered list. -/
def aggregateChart (dateField : String) (txs : List ChartTransaction) :
    List ChartPoint :=
  txs.foldl (fun acc t =>
    match dayKey dateField t with
    | none => acc
    | some day => addToAgg acc day (t.type == "entrada") t.amount) []

/-- Order on chart points used by the final sort: ascending date, as
localeCompare on YYYY-MM-DD strings orders them. -/
def pointLe (p q : ChartPoint) : Prop := Date.le p.date q.date = true

instance : DecidableRel pointLe := fun p q => by
  unfold pointLe; infer_instance

/-- The full chartData pipeline of the chart component. -/
def chartData (dateField typeFilter categoryFilter descriptionFilter : String)
    (startT endT : DateTime) (txs : List ChartTransaction) : List ChartPoint :=
  List.insertionSort pointLe
    (aggregateChart dateField
      (chartFiltered dateField typeFilter categoryFilter descriptionFilter startT endT txs))

/-- Sum of the amounts of the transactions of a given type that fall on
a given day, the value the claim compares a chart point against. -/
def daySum (dateField : String) (txs : List ChartTransaction) (day : Date)
    (ty : String) : Rat :=
  ((txs.filter (fun t => dayKey dateField t == some day && t.type == ty)).map
    (fun t => t.amount)).sum

/-! ## Currency input formatting (currencyFormatter.ts)

formatCurrencyInput keeps the digits of its input, reads them as an
integer amount of cents and renders cents divided by 100 in the pt-BR
number format with exactly two fraction digits: the integer part with a
dot as thousands separator and a comma before the two fraction digits.
parseCurrencyInput keeps digits and commas, turns the first comma into
a dot and applies parseFloat, mapping NaN to 0.  Numbers are idealized
as exact naturals and rationals. -/

/-- Numeric value of a decimal digit character. -/
def digitVal (c : Char) : Nat := c.toNat - 48

/-- Value of a most-significant-first digit character list, the JS
parseInt on a digit string. -/
def parseDigits (l : List Char) : Nat :=
  l.foldl (fun n c => n * 10 + digitVal c) 0

/-- Decimal rendering of a natural number as digit characters. -/
def natToChars (n : Nat) : List Char :=
  if n == 0 then ['0'] else ((Nat.digits 10 n).map Nat.digitChar).reverse

/-- Grouping pass over the reversed digit list: after every three
digits still followed by more digits, insert the pt-BR thousands
separator.  The counter is the number of digits left in the current
group. -/
def groupRev : List Char → Nat → List Char
  | [], _ => []
  | c :: cs, 0 => '.' :: c :: groupRev cs 2
  | c :: cs, Nat.succ k => c :: groupRev cs k

/-- Thousands grouping of a most-significant-first digit list. -/
def groupThousands (l : List Char) : List Char :=
  (groupRev l.reverse 3).reverse

/-- Embedding of formatCurrencyInput: strip non-digits, return the
empty string when no digit remains, otherwise read the digits as cents
and render cents / 100 in the pt-BR format with two fraction digits. -/
def formatCurrencyInput (value : String) : String :=
  let numbers := value.data.filter (fun c => c.isDigit)
  if numbers.isEmpty then "" else
    let cents := parseDigits numbers
    let q := cents / 100
    let r := cents % 100
    String.mk (groupThousands (natToChars q) ++
      ',' :: [Nat.digitChar (r / 10), Nat.digitChar (r % 10)])

/-- JS String.replace with a string pattern replaces the first
occurrence only. -/
def replaceFirstComma : List Char → List Char
  | [] => []
  | c :: cs => if c == ',' then '.' :: cs else c :: replaceFirstComma cs

/-- parseFloat on the cleaned value: a digit run, optionally a dot and
a second digit run, ignoring everything after; NaN (none) when no digit
is read.  Signs and exponents cannot occur here because the caller has
already reduced the input to digits, commas and one dot. -/
def jsParseFloat (l : List Char) : Option Rat :=
  let ip := l.takeWhile (fun c => c.isDigit)
  let rest := l.dropWhile (fun c => c.isDigit)
  match rest with
  | '.' :: rest2 =>
    let fp := rest2.takeWhile (fun c => c.isDigit)
    if ip.isEmpty && fp.isEmpty then none
    else some ((parseDigits ip : Rat) + (parseDigits fp : Rat) / (10 : Rat) ^ fp.length)
  | _ => if ip.isEmpty then none else some ((parseDigits ip : Rat))

/-- Embedding of parseCurrencyInput: keep digits and commas, make the
first comma a dot, parseFloat, and map NaN to 0. -/
def parseCurrencyInput (value : String) : Rat :=
  let clean := value.data.filter (fun c => c.isDigit || c == ',')
  match jsParseFloat (replaceFirstComma clean) with
  | some q => q
  | none => 0

/-! ## Remaining definitions used by the proofs -/

/-- Lookup of the point of a given day in the aggregation accumulator,
the Map.get of the code. -/
def findPoint (acc : List ChartPoint) (day : Date) : Option ChartPoint :=
  acc.find? (fun p => p.date == day)

/-- Sum of the amounts of the transactions of a day whose type is not
entrada; the else branch of the aggregation loop adds exactly these to
the saida bucket. -/
def dayNonEntradaSum (dateField : String) (txs : List ChartTransaction) (day : Date) : Rat :=
  ((txs.filter (fun t => dayKey dateField t == some day && !(t.type == "entrada"))).map
    (fun t => t.amount)).sum

instance : IsTrans ChartPoint pointLe := ⟨by
  intro a b c hab hbc
  unfold pointLe Date.le at *
  simp only [Bool.or_eq_true, Bool.and_eq_true, decide_eq_true_eq, beq_iff_eq] at *
  omega⟩

instance : IsTotal ChartPoint pointLe := ⟨by
  intro a b
  unfold pointLe Date.le
  simp only [Bool.or_eq_true, Bool.and_eq_true, decide_eq_true_eq, beq_iff_eq]
  omega⟩

/-! ## Shared lemmas about the stored procedures -/

theorem claimCredentialsOk_some (md5f : String → String) (cryptf : String → String → String)
    (c pw h : String) :
    claimCredentialsOk md5f cryptf c pw (some h) ↔
      (if likeDollarPrefix h then cryptf (saltedInput pw c) h = h
       else md5f (saltedInput pw c) = h) := by
  constructor
  · rintro ⟨h2, heq, hp⟩
    cases heq
    exact hp
  · intro hp
    exact ⟨h, rfl, hp⟩

theorem claimCredentialsOk_none (md5f : String → String) (cryptf : String → String → String)
    (c pw : String) : ¬ claimCredentialsOk md5f cryptf c pw none := by
  rintro ⟨h, heq, _⟩
  cases heq

theorem authenticate_user_fst_char (md5f : String → String) (cryptf : String → String → String)
    (bfSalt : String) (db : ProfilesTable) (c pw : String) :
    (authenticate_user md5f cryptf bfSalt db c pw).1 =
      match findByCnpj db c with
      | none => []
      | some p =>
        if claimCredentialsOk md5f cryptf c pw p.password_hash
        then [(p.id, p.cnpj, p.company_name)] else [] := by
  rcases hfb : findByCnpj db c with _ | p
  · simp [authenticate_user, hfb]
  · rcases hph : p.password_hash with _ | h
    · simp [authenticate_user, hfb, hph, claimCredentialsOk_none]
    · by_cases hd : likeDollarPrefix h = true
      · by_cases hc : cryptf (saltedInput pw c) h = h
        · simp [authenticate_user, hfb, hph, hd, hc, claimCredentialsOk_some]
        · simp [authenticate_user, hfb, hph, hd, hc, claimCredentialsOk_some]
      · by_cases hm : md5f (saltedInput pw c) = h
        · simp [authenticate_user, hfb, hph, hd, hm, claimCredentialsOk_some]
        · simp [authenticate_user, hfb, hph, hd, hm, claimCredentialsOk_some]

theorem verify_user_password_char (md5f : String → String) (db : ProfilesTable)
    (u : Nat) (pw c : String) (cryptf : String → String → String) :
    verify_user_password md5f db u pw c cryptf =
      match findForPassword db u c with
      | none => some false
      | some p =>
        match p.password_hash with
        | some h => some (decide (claimCredentialsOk md5f cryptf c pw (some h)))
        | none => none := by
  rcases hfp : findForPassword db u c with _ | p
  · simp [verify_user_password, hfp]
  · rcases hph : p.password_hash with _ | h
    · simp [verify_user_password, hfp, hph]
    · by_cases hd : likeDollarPrefix h = true
      · by_cases hc : cryptf (saltedInput pw c) h = h
        · simp [verify_user_password, hfp, hph, hd, hc, claimCredentialsOk_some]
        · simp [verify_user_password, hfp, hph, hd, hc, claimCredentialsOk_some]
      · by_cases hm : md5f (saltedInput pw c) = h
        · simp [verify_user_password, hfp, hph, hd, hm, claimCredentialsOk_some]
        · simp [verify_user_password, hfp, hph, hd, hm, claimCredentialsOk_some]

/-! ## C1 -/

/-- C1: the final authenticate_user looks the profile up by tax-ID; if
the stored password_hash begins with a dollar sign it succeeds exactly
when crypt of password, tax-ID and the static salt against the stored
hash equals the stored hash, otherwise exactly when the md5 of the same
message equals the stored hash; on success it returns the profile id,
cnpj and company name, and on failure the empty row set. -/
theorem authenticate_user_final_policy (md5f : String → String)
    (cryptf : String → String → String) (bfSalt : String)
    (db : ProfilesTable) (c pw : String) :
    (authenticate_user md5f cryptf bfSalt db c pw).1 =
      match findByCnpj db c with
      | none => []
      | some p =>
        if claimCredentialsOk md5f cryptf c pw p.password_hash
        then [(p.id, p.cnpj, p.company_name)] else [] :=
  authenticate_user_fst_char md5f cryptf bfSalt db c pw

/-! ## C5 -/

/-- C5: authenticate_user never returns more than one row, and returns
the empty row set both when no profile has the tax-ID and when the
matching profile fails the password check; verify_user_password returns
false both when its lookup finds nothing and when the found profile has
a stored hash that fails the check, so callers cannot tell the two
failures apart. -/
theorem auth_failures_indistinguishable (md5f : String → String)
    (cryptf : String → String → String) (bfSalt : String)
    (db : ProfilesTable) (c pw : String) (u : Nat) :
    (authenticate_user md5f cryptf bfSalt db c pw).1.length ≤ 1 ∧
    (findByCnpj db c = none → (authenticate_user md5f cryptf bfSalt db c pw).1 = []) ∧
    (∀ p, findByCnpj db c = some p → ¬ claimCredentialsOk md5f cryptf c pw p.password_hash →
      (authenticate_user md5f cryptf bfSalt db c pw).1 = []) ∧
    (findForPassword db u c = none → verify_user_password md5f db u pw c cryptf = some false) ∧
    (∀ p h, findForPassword db u c = some p → p.password_hash = some h →
      ¬ claimCredentialsOk md5f cryptf c pw (some h) →
      verify_user_password md5f db u pw c cryptf = some false) := by
  refine ⟨?_, ?_, ?_, ?_, ?_⟩
  · rw [authenticate_user_fst_char]
    rcases findByCnpj db c with _ | p
    · simp
    · by_cases hcc : claimCredentialsOk md5f cryptf c pw p.password_hash
      · simp [hcc]
      · simp [hcc]
  · intro h
    rw [authenticate_user_fst_char, h]
  · intro p hp hn
    rw [authenticate_user_fst_char, hp]
    simp only [if_neg hn]
  · intro h
    rw [verify_user_password_char, h]
  · intro p h hp hh hn
    rw [verify_user_password_char, hp]
    simp [hh, decide_eq_false hn]

theorem auth_failures_indistinguishable_witness :
    (authenticate_user (fun s => s) (fun s _ => s) "slt" [] "9" "pw").1 = [] ∧
    verify_user_password (fun s => s) [] 3 "pw" "9" (fun s _ => s) = some false :=
  ⟨(auth_failures_indistinguishable (fun s => s) (fun s _ => s) "slt" [] "9" "pw" 3).2.1 rfl,
   (auth_failures_indistinguishable (fun s => s) (fun s _ => s) "slt" [] "9" "pw" 3).2.2.2.1 rfl⟩

/-! ## C6 -/

/-- C6: register_user raises the duplicate error and leaves the table
unchanged when a profile with the tax-ID already exists, and otherwise
succeeds, appending exactly one new row carrying the tax-ID. -/
theorem register_user_duplicate_and_insert (cryptf : String → String → String)
    (bfSalt : String) (newId : Nat) (db : ProfilesTable) (c name pw : String) :
    ((∃ p ∈ db, p.cnpj = c) →
      register_user cryptf bfSalt newId db c name pw =
        (Except.error "CNPJ já cadastrado", db)) ∧
    ((¬ ∃ p ∈ db, p.cnpj = c) →
      register_user cryptf bfSalt newId db c name pw =
        (Except.ok newId,
         db ++ [{ id := newId, cnpj := c, company_name := name,
                  password_hash := some (cryptf (saltedInput pw c) bfSalt),
                  user_id := none }]) ∧
      (register_user cryptf bfSalt newId db c name pw).2.length = db.length + 1) := by
  have hany : (db.any (fun p => p.cnpj == c) = true) ↔ ∃ p ∈ db, p.cnpj = c := by
    simp [List.any_eq_true]
  constructor
  · intro hex
    unfold register_user
    rw [if_pos (hany.mpr hex)]
  · intro hnex
    have hneg : ¬ (db.any (fun p => p.cnpj == c) = true) := fun hco => hnex (hany.mp hco)
    unfold register_user
    rw [if_neg hneg]
    exact ⟨rfl, by simp⟩

theorem register_user_witness :
    register_user (fun s _ => s) "b" 5
        [{ id := 1, cnpj := "9", company_name := "A", password_hash := none, user_id := none }]
        "9" "B" "pw" =
      (Except.error "CNPJ já cadastrado",
       [{ id := 1, cnpj := "9", company_name := "A", password_hash := none, user_id := none }]) ∧
    register_user (fun s _ => s) "b" 5
        [{ id := 1, cnpj := "9", company_name := "A", password_hash := none, user_id := none }]
        "8" "B" "pw" =
      (Except.ok 5,
       [{ id := 1, cnpj := "9", company_name := "A", password_hash := none, user_id := none },
        { id := 5, cnpj := "8", company_name := "B",
          password_hash := some (saltedInput "pw" "8"), user_id := none }]) :=
  ⟨(register_user_duplicate_and_insert (fun s _ => s) "b" 5
      [{ id := 1, cnpj := "9", company_name := "A", password_hash := none, user_id := none }]
      "9" "B" "pw").1
      ⟨{ id := 1, cnpj := "9", company_name := "A", password_hash := none, user_id := none },
       by simp, rfl⟩,
   ((register_user_duplicate_and_insert (fun s _ => s) "b" 5
      [{ id := 1, cnpj := "9", company_name := "A", password_hash := none, user_id := none }]
      "8" "B" "pw").2 (by decide)).1⟩

/-! ## C7 -/

/-- C7 counterexample: in the final password procedures the lookup is
not by tax-ID alone.  A profile linked to identity 2 is found by the
login lookup but not by the password lookup for caller 3, and
verify_user_password answers differently for callers 2 and 3 on the
same tax-ID and correct password. -/
theorem password_lookup_tax_id_only_cex :
    findForPassword
        [{ id := 1, cnpj := "9", company_name := "Co",
           password_hash := some (saltedInput "pw" "9"), user_id := some 2 }] 3 "9" = none ∧
    findByCnpj
        [{ id := 1, cnpj := "9", company_name := "Co",
           password_hash := some (saltedInput "pw" "9"), user_id := some 2 }] "9" =
      some { id := 1, cnpj := "9", company_name := "Co",
             password_hash := some (saltedInput "pw" "9"), user_id := some 2 } ∧
    verify_user_password (fun s => s)
        [{ id := 1, cnpj := "9", company_name := "Co",
           password_hash := some (saltedInput "pw" "9"), user_id := some 2 }]
        3 "pw" "9" (fun s _ => s) = some false ∧
    verify_user_password (fun s => s)
        [{ id := 1, cnpj := "9", company_name := "Co",
           password_hash := some (saltedInput "pw" "9"), user_id := some 2 }]
        2 "pw" "9" (fun s _ => s) = some true ∧
    (update_user_password (fun s => s) (fun s _ => s) "b"
        [{ id := 1, cnpj := "9", company_name := "Co",
           password_hash := some (saltedInput "pw" "9"), user_id := some 2 }]
        3 "pw" "new" "9").1 = false := by
  decide

/-- C7 amended: the profile acted on by the final update_user_password
and verify_user_password is the first one whose cnpj matches and that is
additionally unlinked, linked to the caller, or has the caller identity
as its legacy id; the lookup therefore depends on the caller in general
and coincides with the tax-ID-only login lookup when the profiles are
unlinked.  When the lookup finds nothing both procedures fail. -/
theorem password_lookup_final_characterization (db : ProfilesTable) (u : Nat) (c : String) :
    (∀ p, findForPassword db u c = some p →
      p.cnpj = c ∧ (p.user_id = some u ∨ p.user_id = none ∨ p.id = u)) ∧
    ((∀ p ∈ db, p.user_id = none) → findForPassword db u c = findByCnpj db c) ∧
    (∀ md5f cryptf bfSalt cur pw, findForPassword db u c = none →
      update_user_password md5f cryptf bfSalt db u cur pw c = (false, db) ∧
      verify_user_password md5f db u pw c cryptf = some false) := by
  refine ⟨?_, ?_, ?_⟩
  · intro p hp
    have hpred := List.find?_some hp
    simp only [Bool.and_eq_true, Bool.or_eq_true, beq_iff_eq] at hpred
    tauto
  · intro hnone
    unfold findForPassword findByCnpj
    induction db with
    | nil => rfl
    | cons q rest ih =>
      have hq : q.user_id = none := hnone q (by simp)
      by_cases hc : q.cnpj == c
      · simp [List.find?, hc, hq]
      · simp only [List.find?, hc, hq]
        simpa using ih (fun p hp => hnone p (by simp [hp]))
  · intro md5f cryptf bfSalt cur pw hfp
    constructor
    · unfold update_user_password
      rw [hfp]
    · unfold verify_user_password
      rw [hfp]

theorem password_lookup_final_characterization_witness :
    findForPassword
        [{ id := 1, cnpj := "9", company_name := "Co", password_hash := none,
           user_id := none }] 3 "9" =
      findByCnpj
        [{ id := 1, cnpj := "9", company_name := "Co", password_hash := none,
           user_id := none }] "9" :=
  (password_lookup_final_characterization
      [{ id := 1, cnpj := "9", company_name := "Co", password_hash := none,
         user_id := none }] 3 "9").2.1 (by decide)

/-! ## C2 -/

/-- C2 counterexample: a successful authenticate_user call on a profile
with a legacy hash and an absent user_id replaces the stored hash but
does not populate user_id, which stays absent in the updated table. -/
theorem authenticate_user_no_link_cex :
    (authenticate_user (fun s => s) (fun s _ => "$" ++ s) "slt"
        [{ id := 1, cnpj := "9", company_name := "Co",
           password_hash := some (saltedInput "pw" "9"), user_id := none }] "9" "pw").1 =
      [(1, "9", "Co")] ∧
    likeDollarPrefix (saltedInput "pw" "9") = false ∧
    (authenticate_user (fun s => s) (fun s _ => "$" ++ s) "slt"
        [{ id := 1, cnpj := "9", company_name := "Co",
           password_hash := some (saltedInput "pw" "9"), user_id := none }] "9" "pw").2 =
      [{ id := 1, cnpj := "9", company_name := "Co",
         password_hash := some ("$" ++ saltedInput "pw" "9"), user_id := none }] := by
  decide

/-- C2 amended: on a successful legacy-hash match authenticate_user
immediately replaces the stored hash with a freshly computed bcrypt
hash and leaves every row id and user_id unchanged; the identity link
is populated, when absent, by update_user_password on its own
successful verification. -/
theorem legacy_upgrade_amended (md5f : String → String) (cryptf : String → String → String)
    (bfSalt : String) (db : ProfilesTable) (c pw : String) (p : Profile) (h : String)
    (hp : findByCnpj db c = some p) (hh : p.password_hash = some h)
    (hleg : likeDollarPrefix h = false) (hm : md5f (saltedInput pw c) = h) :
    (authenticate_user md5f cryptf bfSalt db c pw).1 = [(p.id, p.cnpj, p.company_name)] ∧
    (authenticate_user md5f cryptf bfSalt db c pw).2 =
      db.map (fun q => if q.id == p.id then
        { q with password_hash := some (cryptf (saltedInput pw c) bfSalt) } else q) ∧
    (∀ q ∈ (authenticate_user md5f cryptf bfSalt db c pw).2, ∃ q0 ∈ db,
        q.user_id = q0.user_id ∧ q.id = q0.id) ∧
    (∀ u cur npw p2, findForPassword db u c = some p2 →
      (update_user_password md5f cryptf bfSalt db u cur npw c).1 = true →
      ∃ q ∈ (update_user_password md5f cryptf bfSalt db u cur npw c).2,
        q.id = p2.id ∧ q.user_id = p2.user_id.orElse (fun _ => some u) ∧ q.user_id ≠ none) := by
  have hdb2 : (authenticate_user md5f cryptf bfSalt db c pw).2 =
      db.map (fun q => if q.id == p.id then
        { q with password_hash := some (cryptf (saltedInput pw c) bfSalt) } else q) := by
    simp [authenticate_user, hp, hh, hleg, hm]
  refine ⟨?_, hdb2, ?_, ?_⟩
  · simp [authenticate_user, hp, hh, hleg, hm]
  · intro q hq
    rw [hdb2] at hq
    rcases List.mem_map.mp hq with ⟨q0, hq0, rfl⟩
    refine ⟨q0, hq0, ?_, ?_⟩ <;> by_cases hid : q0.id == p.id <;> simp [hid]
  · intro u cur npw p2 hfp hsucc
    have hmem : p2 ∈ db := List.mem_of_find?_eq_some hfp
    unfold update_user_password at hsucc ⊢
    rw [hfp] at hsucc ⊢
    simp only at hsucc ⊢
    by_cases hok : (match p2.password_hash with
      | some h2 =>
        if likeDollarPrefix h2 then
          cryptf (saltedInput cur c) h2 == h2
        else
          md5f (saltedInput cur c) == h2
      | none => true) = true
    · rw [if_pos hok]
      refine ⟨(fun q => if q.id == p2.id then
          { q with
            password_hash := some (cryptf (saltedInput npw c) bfSalt),
            user_id := q.user_id.orElse (fun _ => some u) }
          else q) p2, List.mem_map_of_mem _ hmem, ?_⟩
      cases hcase : p2.user_id <;> simp [hcase, Option.orElse]
    · rw [if_neg hok] at hsucc
      cases hsucc

theorem legacy_upgrade_amended_witness :
    (authenticate_user (fun s => s) (fun _ _ => "$h") "slt"
        [{ id := 1, cnpj := "7", company_name := "Co",
           password_hash := some (saltedInput "pw" "7"), user_id := none }] "7" "pw").1 =
      [(1, "7", "Co")] :=
  (legacy_upgrade_amended (fun s => s) (fun _ _ => "$h") "slt"
      [{ id := 1, cnpj := "7", company_name := "Co",
         password_hash := some (saltedInput "pw" "7"), user_id := none }] "7" "pw"
      { id := 1, cnpj := "7", company_name := "Co",
        password_hash := some (saltedInput "pw" "7"), user_id := none }
      (saltedInput "pw" "7") (by decide) rfl (by decide) rfl).1

/-! ## C9 -/

theorem findByCnpj_map (db : ProfilesTable) (f : Profile → Profile) (c : String)
    (hf : ∀ q, (f q).cnpj = q.cnpj) :
    findByCnpj (db.map f) c = (findByCnpj db c).map f := by
  unfold findByCnpj
  rw [List.find?_map]
  have hfun : ((fun p => p.cnpj == c) ∘ f) = fun p : Profile => p.cnpj == c :=
    funext (fun q => by simp [Function.comp, hf])
  rw [hfun]

/-- C9: after a successful legacy-hash authentication the stored hash
of the tax-ID begins with a dollar sign and the crypt comparison of the
same password against it succeeds; in particular, a second
authenticate_user call with the same password succeeds through the
strong branch and returns the same public fields.  The bcrypt facts
(the generated hash carries the dollar prefix and crypt against its own
output reproduces it) are the two final hypotheses. -/
theorem legacy_upgrade_strong_scheme (md5f : String → String)
    (cryptf : String → String → String) (bfSalt : String) (db : ProfilesTable)
    (c pw : String) (p : Profile) (h : String)
    (hp : findByCnpj db c = some p) (hh : p.password_hash = some h)
    (hleg : likeDollarPrefix h = false) (hm : md5f (saltedInput pw c) = h)
    (hb1 : likeDollarPrefix (cryptf (saltedInput pw c) bfSalt) = true)
    (hb2 : cryptf (saltedInput pw c) (cryptf (saltedInput pw c) bfSalt) =
      cryptf (saltedInput pw c) bfSalt) :
    ∃ p2, findByCnpj (authenticate_user md5f cryptf bfSalt db c pw).2 c = some p2 ∧
      p2.password_hash = some (cryptf (saltedInput pw c) bfSalt) ∧
      (∀ h2, p2.password_hash = some h2 →
        likeDollarPrefix h2 = true ∧ cryptf (saltedInput pw c) h2 = h2) ∧
      (authenticate_user md5f cryptf bfSalt
        (authenticate_user md5f cryptf bfSalt db c pw).2 c pw).1 =
          [(p.id, p.cnpj, p.company_name)] := by
  have hdb2 : (authenticate_user md5f cryptf bfSalt db c pw).2 =
      db.map (fun q => if q.id == p.id then
        { q with password_hash := some (cryptf (saltedInput pw c) bfSalt) } else q) := by
    simp [authenticate_user, hp, hh, hleg, hm]
  have hfind2 : findByCnpj (authenticate_user md5f cryptf bfSalt db c pw).2 c =
      some { p with password_hash := some (cryptf (saltedInput pw c) bfSalt) } := by
    rw [hdb2, findByCnpj_map _ _ _ (by
      intro q
      by_cases hid : q.id == p.id <;> simp [hid]), hp]
    simp
  refine ⟨{ p with password_hash := some (cryptf (saltedInput pw c) bfSalt) },
    hfind2, rfl, ?_, ?_⟩
  · intro h2 hh2
    cases hh2
    exact ⟨hb1, hb2⟩
  · rw [authenticate_user_fst_char, hfind2]
    have hcred : claimCredentialsOk md5f cryptf c pw
        (some (cryptf (saltedInput pw c) bfSalt)) := by
      rw [claimCredentialsOk_some, if_pos hb1]
      exact hb2
    simp [hcred]

theorem legacy_upgrade_strong_scheme_witness :
    ∃ p2, findByCnpj (authenticate_user (fun s => s) (fun _ _ => "$h") "slt"
        [{ id := 1, cnpj := "7", company_name := "Co",
           password_hash := some (saltedInput "pw" "7"), user_id := none }] "7" "pw").2 "7" =
      some p2 ∧
      p2.password_hash = some "$h" ∧
      (∀ h2, p2.password_hash = some h2 →
        likeDollarPrefix h2 = true ∧ "$h" = h2) ∧
      (authenticate_user (fun s => s) (fun _ _ => "$h") "slt"
        (authenticate_user (fun s => s) (fun _ _ => "$h") "slt"
          [{ id := 1, cnpj := "7", company_name := "Co",
             password_hash := some (saltedInput "pw" "7"), user_id := none }] "7" "pw").2
        "7" "pw").1 = [(1, "7", "Co")] :=
  legacy_upgrade_strong_scheme (fun s => s) (fun _ _ => "$h") "slt"
    [{ id := 1, cnpj := "7", company_name := "Co",
       password_hash := some (saltedInput "pw" "7"), user_id := none }] "7" "pw"
    { id := 1, cnpj := "7", company_name := "Co",
      password_hash := some (saltedInput "pw" "7"), user_id := none }
    (saltedInput "pw" "7") (by decide) rfl (by decide) rfl (by decide) rfl

/-! ## C3 -/

theorem daysInMonth_ge (y m : Nat) : 28 ≤ daysInMonth y m := by
  unfold daysInMonth
  split_ifs <;> omega

theorem buildInstallments_get (userId : Nat) (ty desc cat : String) (amount : Rat)
    (n : Nat) (base : Date) (i : Nat)
    (hi : i < (buildInstallments userId ty desc amount n base cat).length) :
    (buildInstallments userId ty desc amount n base cat).get ⟨i, hi⟩ =
      { user_id := userId, type := ty, description := desc, amount := amount,
        payment_method := "parcelado", installments := n,
        current_installment := i + 1, due_date := jsAddMonths base i,
        category := cat, status := "pendente" } := by
  simp [buildInstallments, List.get_eq_getElem]

/-- C3: a parcelado submission with installment count n greater than 1
produces exactly n rows that share user, type, description, amount,
category, payment method and installments count n, with
current_installment running through 1..n and row i (0-based) due at the
chosen date advanced by i months; the advance is calendar-month
arithmetic: whenever the chosen day of month is at most 28 the advanced
date keeps the day and moves the linear month index by exactly i. -/
theorem installment_expansion (userId : Nat) (ty desc cat : String) (amount : Rat)
    (n : Nat) (base : Date) (rows : List InsertRow) (hn : 1 < n)
    (hrows : rows = handleSubmitRows userId ty desc amount "parcelado" n base cat) :
    rows.length = n ∧
    (∀ i (hi : i < rows.length), rows.get ⟨i, hi⟩ =
      { user_id := userId, type := ty, description := desc, amount := amount,
        payment_method := "parcelado", installments := n,
        current_installment := i + 1, due_date := jsAddMonths base i,
        category := cat, status := "pendente" }) ∧
    (base.day ≤ 28 → ∀ i,
      (jsAddMonths base i).day = base.day ∧
      (jsAddMonths base i).year * 12 + ((jsAddMonths base i).month - 1) =
        base.year * 12 + (base.month - 1) + i) := by
  subst hrows
  have heq : handleSubmitRows userId ty desc amount "parcelado" n base cat =
      buildInstallments userId ty desc amount n base cat := by
    unfold handleSubmitRows
    simp [hn]
  rw [heq]
  refine ⟨by simp [buildInstallments], ?_, ?_⟩
  · intro i hi
    exact buildInstallments_get userId ty desc cat amount n base i hi
  · intro hd i
    unfold jsAddMonths
    have h28 := daysInMonth_ge ((base.year * 12 + (base.month - 1) + i) / 12)
      ((base.year * 12 + (base.month - 1) + i) % 12 + 1)
    rw [if_pos (le_trans hd h28)]
    have hdm := Nat.div_add_mod (base.year * 12 + (base.month - 1) + i) 12
    refine ⟨rfl, ?_⟩
    show (base.year * 12 + (base.month - 1) + i) / 12 * 12 +
        ((base.year * 12 + (base.month - 1) + i) % 12 + 1 - 1) =
      base.year * 12 + (base.month - 1) + i
    omega

theorem installment_expansion_witness :
    (handleSubmitRows 7 "entrada" "d" 5 "parcelado" 3
        { year := 2025, month := 1, day := 15 } "c").length = 3 ∧
    (jsAddMonths { year := 2025, month := 1, day := 15 } 2).day = 15 :=
  ⟨(installment_expansion 7 "entrada" "d" "c" 5 3 { year := 2025, month := 1, day := 15 }
      _ (by decide) rfl).1,
   ((installment_expansion 7 "entrada" "d" "c" 5 3 { year := 2025, month := 1, day := 15 }
      _ (by decide) rfl).2.2 (by decide) 2).1⟩

/-! ## C4 -/

/-- C4 counterexample: a transaction due exactly today with stored
status pendente is displayed as vencido although its due date is not in
the past, whereas the claim predicts the stored status unchanged for
every transaction whose due date is not past. -/
theorem display_status_today_cex :
    displayTransaction { year := 2025, month := 5, day := 10 }
        { id := 1, type := "entrada", description := "d", amount := 5,
          due_date := { year := 2025, month := 5, day := 10 }, category := "c",
          status := "pendente" } =
      { id := 1, type := "entrada", description := "d", amount := 5,
        due_date := { year := 2025, month := 5, day := 10 }, category := "c",
        status := "vencido" } ∧
    ¬("vencido" = "pendente") := by
  decide

/-- C4 amended: a loaded transaction is displayed as vencido exactly
when its stored status is pendente and its due date is on or before
today (the code compares with less-or-equal, so a transaction due today
is also shown overdue); every other transaction keeps its stored
status; all other fields are preserved, and loading only maps over the
rows, issuing no write back. -/
theorem display_status_amended (today : Date) (t : LoadedTransaction)
    (rows : List LoadedTransaction) :
    ((Date.le t.due_date today = true ∧ t.status = "pendente") →
      displayTransaction today t = { t with status := "vencido" }) ∧
    (¬(Date.le t.due_date today = true ∧ t.status = "pendente") →
      displayTransaction today t = t) ∧
    ((displayTransaction today t).id = t.id ∧
     (displayTransaction today t).type = t.type ∧
     (displayTransaction today t).description = t.description ∧
     (displayTransaction today t).amount = t.amount ∧
     (displayTransaction today t).due_date = t.due_date ∧
     (displayTransaction today t).category = t.category) ∧
    displayTransactions today rows = rows.map (displayTransaction today) := by
  refine ⟨?_, ?_, ?_, rfl⟩
  · rintro ⟨h1, h2⟩
    simp [displayTransaction, h1, h2]
  · intro hn
    have hfalse : (Date.le t.due_date today && t.status == "pendente") = false := by
      cases hbd : Date.le t.due_date today
      · simp
      · cases hst : (t.status == "pendente")
        · simp [hst]
        · exact absurd ⟨hbd, eq_of_beq hst⟩ hn
    simp [displayTransaction, hfalse]
  · exact ⟨rfl, rfl, rfl, rfl, rfl, rfl⟩

theorem display_status_amended_witness :
    displayTransaction { year := 2025, month := 5, day := 10 }
        { id := 1, type := "entrada", description := "d", amount := 5,
          due_date := { year := 2025, month := 4, day := 1 }, category := "c",
          status := "pendente" } =
      { id := 1, type := "entrada", description := "d", amount := 5,
        due_date := { year := 2025, month := 4, day := 1 }, category := "c",
        status := "vencido" } :=
  (display_status_amended { year := 2025, month := 5, day := 10 }
      { id := 1, type := "entrada", description := "d", amount := 5,
        due_date := { year := 2025, month := 4, day := 1 }, category := "c",
        status := "pendente" } []).1 ⟨by decide, rfl⟩

/-! ## C8: lemmas about the aggregation accumulator -/

theorem daySum_cons (field : String) (t : ChartTransaction) (rest : List ChartTransaction)
    (day : Date) (ty : String) :
    daySum field (t :: rest) day ty =
      (if dayKey field t == some day && t.type == ty then t.amount else 0) +
        daySum field rest day ty := by
  unfold daySum
  rw [List.filter_cons]
  by_cases hc : (dayKey field t == some day && t.type == ty) = true
  · simp [hc]
  · simp [hc]

theorem dayNonEntradaSum_cons (field : String) (t : ChartTransaction)
    (rest : List ChartTransaction) (day : Date) :
    dayNonEntradaSum field (t :: rest) day =
      (if dayKey field t == some day && !(t.type == "entrada") then t.amount else 0) +
        dayNonEntradaSum field rest day := by
  unfold dayNonEntradaSum
  rw [List.filter_cons]
  by_cases hc : (dayKey field t == some day && !(t.type == "entrada")) = true
  · simp [hc]
  · simp [hc]

theorem findPoint_addToAgg_same (acc : List ChartPoint) (day : Date) (b : Bool) (amt : Rat) :
    findPoint (addToAgg acc day b amt) day =
      some (match findPoint acc day with
        | none =>
          if b then { date := day, entrada := amt, saida := 0 }
          else { date := day, entrada := 0, saida := amt }
        | some p =>
          if b then { p with entrada := p.entrada + amt }
          else { p with saida := p.saida + amt }) := by
  induction acc with
  | nil => cases b <;> simp [findPoint, addToAgg, List.find?]
  | cons p rest ih =>
    by_cases hp : (p.date == day) = true
    · cases b <;> simp [findPoint, addToAgg, List.find?, hp]
    · unfold addToAgg
      rw [if_neg hp]
      unfold findPoint at ih ⊢
      simp only [List.find?, hp]
      exact ih

theorem findPoint_addToAgg_ne (acc : List ChartPoint) (day : Date) (b : Bool) (amt : Rat)
    (day2 : Date) (hne : day2 ≠ day) :
    findPoint (addToAgg acc day b amt) day2 = findPoint acc day2 := by
  have hnb : (day == day2) = false := by
    simp only [beq_eq_false_iff_ne, ne_eq]
    exact fun hco => absurd hco.symm hne
  induction acc with
  | nil =>
    cases b <;> simp [findPoint, addToAgg, List.find?, hnb]
  | cons p rest ih =>
    by_cases hp : (p.date == day) = true
    · have hpd : p.date = day := eq_of_beq hp
      have hnd2 : (p.date == day2) = false := by rw [hpd]; exact hnb
      unfold addToAgg
      rw [if_pos hp]
      cases b <;> simp [findPoint, List.find?, hnd2]
    · unfold addToAgg
      rw [if_neg hp]
      by_cases hq : (p.date == day2) = true
      · simp [findPoint, List.find?, hq]
      · have hqf : (p.date == day2) = false := by
          revert hq
          cases (p.date == day2) <;> simp
        unfold findPoint at ih ⊢
        simp only [List.find?, hqf]
        exact ih

theorem findPoint_isSome_iff (acc : List ChartPoint) (day : Date) :
    (findPoint acc day).isSome = true ↔ day ∈ acc.map (fun p => p.date) := by
  induction acc with
  | nil => simp [findPoint, List.find?]
  | cons q rest ih =>
    by_cases hq : (q.date == day) = true
    · have hqd := eq_of_beq hq
      simp [findPoint, List.find?, hq, hqd]
    · have hqf : (q.date == day) = false := by
        revert hq
        cases (q.date == day) <;> simp
      have hne : ¬ day = q.date := by
        simp only [beq_eq_false_iff_ne, ne_eq] at hqf
        exact fun hco => hqf hco.symm
      rw [show findPoint (q :: rest) day = findPoint rest day from by
        simp [findPoint, List.find?, hqf]]
      rw [ih]
      simp [List.mem_cons, hne]

theorem addToAgg_map_date (acc : List ChartPoint) (day : Date) (b : Bool) (amt : Rat) :
    (addToAgg acc day b amt).map (fun p => p.date) =
      if (findPoint acc day).isSome = true then acc.map (fun p => p.date)
      else acc.map (fun p => p.date) ++ [day] := by
  induction acc with
  | nil => cases b <;> simp [addToAgg, findPoint, List.find?]
  | cons p rest ih =>
    by_cases hp : (p.date == day) = true
    · have hpd : p.date = day := eq_of_beq hp
      unfold addToAgg
      rw [if_pos hp]
      cases b <;> simp [findPoint, List.find?, hp]
    · have hqf : (p.date == day) = false := by
        revert hp
        cases (p.date == day) <;> simp
      unfold addToAgg
      rw [if_neg hp]
      simp only [List.map_cons, ih]
      unfold findPoint
      simp only [List.find?, hqf]
      split_ifs <;> simp

theorem findPoint_eq_of_mem (acc : List ChartPoint) (p : ChartPoint)
    (hnd : (acc.map (fun q => q.date)).Nodup) (hmem : p ∈ acc) :
    findPoint acc p.date = some p := by
  induction acc with
  | nil => cases hmem
  | cons q rest ih =>
    simp only [List.map_cons, List.nodup_cons] at hnd
    rcases List.mem_cons.mp hmem with rfl | hrest
    · simp [findPoint, List.find?]
    · have hqne : (q.date == p.date) = false := by
        simp only [beq_eq_false_iff_ne, ne_eq]
        intro hco
        rw [hco] at hnd
        exact hnd.1 (List.mem_map_of_mem _ hrest)
      rw [show findPoint (q :: rest) p.date = findPoint rest p.date from by
        simp [findPoint, List.find?, hqne]]
      exact ih hnd.2 hrest

theorem foldl_agg_findPoint (field : String) (l : List ChartTransaction) (day : Date) :
    ∀ acc : List ChartPoint,
      findPoint (l.foldl (fun acc t =>
        match dayKey field t with
        | none => acc
        | some d => addToAgg acc d (t.type == "entrada") t.amount) acc) day =
      match findPoint acc day with
      | some p =>
        some { p with
               entrada := p.entrada + daySum field l day "entrada",
               saida := p.saida + dayNonEntradaSum field l day }
      | none =>
        if l.any (fun t => dayKey field t == some day) then
          some { date := day,
                 entrada := daySum field l day "entrada",
                 saida := dayNonEntradaSum field l day }
        else none := by
  induction l with
  | nil =>
    intro acc
    simp only [List.foldl_nil, List.any_nil, if_neg Bool.false_ne_true]
    cases hfp : findPoint acc day with
    | none => simp
    | some p => simp [daySum, dayNonEntradaSum]
  | cons t rest ih =>
    intro acc
    rw [List.foldl_cons]
    cases hk : dayKey field t with
    | none =>
      simp only [hk]
      rw [ih]
      have hcon : (dayKey field t == some day) = false := by simp [hk]
      rw [daySum_cons, dayNonEntradaSum_cons]
      simp [hcon, List.any_cons]
    | some d =>
      simp only [hk]
      by_cases hd : d = day
      · subst hd
        rw [ih, findPoint_addToAgg_same]
        have hcon : (dayKey field t == some d) = true := by simp [hk]
        rw [daySum_cons, dayNonEntradaSum_cons]
        have hany : ((t :: rest).any (fun t => dayKey field t == some d)) = true := by
          simp [List.any_cons, hk]
        cases hfp : findPoint acc d with
        | some p =>
          cases hb : (t.type == "entrada") <;>
            simp [hfp, hcon, hb, add_assoc]
        | none =>
          cases hb : (t.type == "entrada") <;>
            simp [hcon, hb, hany, add_assoc]
      · have hnd : day ≠ d := fun hco => hd hco.symm
        rw [ih, findPoint_addToAgg_ne acc d (t.type == "entrada") t.amount day hnd]
        have hcon : (dayKey field t == some day) = false := by
          simp [hk]
          exact hd
        rw [daySum_cons, dayNonEntradaSum_cons]
        simp [hcon, List.any_cons]

theorem foldl_agg_nodup (field : String) (l : List ChartTransaction) :
    ∀ acc : List ChartPoint, (acc.map (fun p => p.date)).Nodup →
      ((l.foldl (fun acc t =>
        match dayKey field t with
        | none => acc
        | some d => addToAgg acc d (t.type == "entrada") t.amount) acc).map
          (fun p => p.date)).Nodup := by
  induction l with
  | nil => intro acc h; simpa using h
  | cons t rest ih =>
    intro acc h
    rw [List.foldl_cons]
    apply ih
    cases hk : dayKey field t with
    | none => simpa [hk] using h
    | some d =>
      simp only [hk]
      rw [addToAgg_map_date]
      by_cases hs : (findPoint acc d).isSome = true
      · rw [if_pos hs]
        exact h
      · rw [if_neg hs]
        have hnotmem : d ∉ acc.map (fun p => p.date) := by
          intro hmem
          exact hs ((findPoint_isSome_iff acc d).mpr hmem)
        simp [List.nodup_append, h, hnotmem]

theorem agg_findPoint_empty (field : String) (l : List ChartTransaction) (day : Date) :
    findPoint (aggregateChart field l) day =
      if l.any (fun t => dayKey field t == some day) then
        some { date := day,
               entrada := daySum field l day "entrada",
               saida := dayNonEntradaSum field l day }
      else none := by
  have h := foldl_agg_findPoint field l day []
  unfold aggregateChart
  rw [h]
  rfl

theorem mem_chartFiltered (field tyF catF descF : String) (startT endT : DateTime)
    (txs : List ChartTransaction) (t : ChartTransaction)
    (ht : t ∈ chartFiltered field tyF catF descF startT endT txs) : t ∈ txs := by
  unfold chartFiltered at ht
  exact List.mem_of_mem_filter (List.mem_of_mem_filter
    (List.mem_of_mem_filter (List.mem_of_mem_filter ht)))

theorem dayNonEntradaSum_eq_saida (field : String) (l : List ChartTransaction) (day : Date)
    (h : ∀ t ∈ l, t.type = "entrada" ∨ t.type = "saida") :
    dayNonEntradaSum field l day = daySum field l day "saida" := by
  unfold dayNonEntradaSum daySum
  have hfe : l.filter (fun t => dayKey field t == some day && !(t.type == "entrada")) =
      l.filter (fun t => dayKey field t == some day && t.type == "saida") := by
    apply List.filter_congr
    intro t ht
    rcases h t ht with hty | hty <;> simp [hty]
  rw [hfe]

/-- C8: the chart pipeline over any transaction list, chosen date
field, date range and filter set yields a series with exactly one point
per calendar day carrying a filtered transaction, whose entrada value
is the sum of the filtered entrada amounts of that day and whose saida
value is the sum of the filtered saida amounts of that day, sorted in
ascending date order.  The hypothesis that every type is entrada or
saida mirrors the CHECK constraint of the transactions table. -/
theorem chart_aggregation_correct (field tyF catF descF : String) (startT endT : DateTime)
    (txs filtered : List ChartTransaction) (pts : List ChartPoint)
    (hfil : filtered = chartFiltered field tyF catF descF startT endT txs)
    (hpts : pts = chartData field tyF catF descF startT endT txs)
    (htypes : ∀ t ∈ txs, t.type = "entrada" ∨ t.type = "saida") :
    List.Sorted pointLe pts ∧
    (pts.map (fun p => p.date)).Nodup ∧
    (∀ day, (∃ p ∈ pts, p.date = day) ↔ ∃ t ∈ filtered, dayKey field t = some day) ∧
    ∀ p ∈ pts, p.entrada = daySum field filtered p.date "entrada" ∧
      p.saida = daySum field filtered p.date "saida" := by
  have hpts2 : pts = List.insertionSort pointLe (aggregateChart field filtered) := by
    rw [hpts, hfil]
    rfl
  have hperm : List.Perm pts (aggregateChart field filtered) := by
    rw [hpts2]
    exact List.perm_insertionSort pointLe _
  have hnodagg : ((aggregateChart field filtered).map (fun p => p.date)).Nodup := by
    unfold aggregateChart
    exact foldl_agg_nodup field filtered [] (by simp)
  have hsubt : ∀ t ∈ filtered, t.type = "entrada" ∨ t.type = "saida" := fun t ht =>
    htypes t (mem_chartFiltered field tyF catF descF startT endT txs t (hfil ▸ ht))
  refine ⟨?_, ?_, ?_, ?_⟩
  · rw [hpts2]
    exact List.sorted_insertionSort pointLe _
  · exact ((hperm.map (fun p => p.date)).nodup_iff).mpr hnodagg
  · intro day
    constructor
    · rintro ⟨p, hp, rfl⟩
      have hpa : p ∈ aggregateChart field filtered := hperm.mem_iff.mp hp
      have hiso : (findPoint (aggregateChart field filtered) p.date).isSome = true :=
        (findPoint_isSome_iff _ _).mpr (List.mem_map_of_mem _ hpa)
      rw [agg_findPoint_empty] at hiso
      by_cases hany : (filtered.any (fun t => dayKey field t == some p.date)) = true
      · rcases List.any_eq_true.mp hany with ⟨t, ht, htt⟩
        exact ⟨t, ht, eq_of_beq htt⟩
      · rw [if_neg hany] at hiso
        simp at hiso
    · rintro ⟨t, ht, htk⟩
      have hany : (filtered.any (fun t => dayKey field t == some day)) = true :=
        List.any_eq_true.mpr ⟨t, ht, by simp [htk]⟩
      have hchar := agg_findPoint_empty field filtered day
      rw [if_pos hany] at hchar
      have hmem : ({ date := day,
                     entrada := daySum field filtered day "entrada",
                     saida := dayNonEntradaSum field filtered day } : ChartPoint) ∈
            aggregateChart field filtered :=
        List.mem_of_find?_eq_some hchar
      exact ⟨_, hperm.mem_iff.mpr hmem, rfl⟩
  · intro p hp
    have hpa : p ∈ aggregateChart field filtered := hperm.mem_iff.mp hp
    have hfind := findPoint_eq_of_mem _ p hnodagg hpa
    rw [agg_findPoint_empty] at hfind
    by_cases hany : (filtered.any (fun t => dayKey field t == some p.date)) = true
    · rw [if_pos hany] at hfind
      have hpe := Option.some.inj hfind
      constructor
      · rw [← hpe]
      · rw [← hpe]
        exact dayNonEntradaSum_eq_saida field filtered p.date hsubt
    · rw [if_neg hany] at hfind
      exact Option.noConfusion hfind

theorem chart_aggregation_correct_witness :
    List.Sorted pointLe (chartData "due_date" "ambos" "todas" "todas"
      ({ year := 2020, month := 1, day := 1 }, 0) ({ year := 2030, month := 1, day := 1 }, 0)
      [{ type := "entrada", description := "a", category := "c", amount := 3,
         due_date := some { year := 2025, month := 1, day := 2 }, created_at := none,
         creation_date := none },
       { type := "saida", description := "b", category := "c", amount := 2,
         due_date := some { year := 2025, month := 1, day := 2 }, created_at := none,
         creation_date := none }]) :=
  (chart_aggregation_correct "due_date" "ambos" "todas" "todas"
    ({ year := 2020, month := 1, day := 1 }, 0) ({ year := 2030, month := 1, day := 1 }, 0)
    [{ type := "entrada", description := "a", category := "c", amount := 3,
       due_date := some { year := 2025, month := 1, day := 2 }, created_at := none,
       creation_date := none },
     { type := "saida", description := "b", category := "c", amount := 2,
       due_date := some { year := 2025, month := 1, day := 2 }, created_at := none,
       creation_date := none }] _ _ rfl rfl (by decide)).1

/-! ## C10: lemmas about digits and the pt-BR rendering -/

theorem digitVal_digitChar (d : Nat) (hd : d < 10) : digitVal (Nat.digitChar d) = d := by
  interval_cases d <;> rfl

theorem digitChar_isDigit (d : Nat) (hd : d < 10) : (Nat.digitChar d).isDigit = true := by
  interval_cases d <;> rfl

theorem digit_not_comma (c : Char) (h : c.isDigit = true) : (c == ',') = false := by
  have hne : c ≠ ',' := by
    intro hco
    rw [hco] at h
    exact absurd h (by decide)
  simp [hne]

theorem digit_passes (c : Char) (h : c.isDigit = true) : (c.isDigit || c == ',') = true := by
  simp [h]

theorem parseDigits_append_singleton (xs : List Char) (c : Char) :
    parseDigits (xs ++ [c]) = parseDigits xs * 10 + digitVal c := by
  unfold parseDigits
  rw [List.foldl_append]
  rfl

theorem parseDigits_rev_digits (ds : List Nat) (h : ∀ d ∈ ds, d < 10) :
    parseDigits ((ds.map Nat.digitChar).reverse) = Nat.ofDigits 10 ds := by
  induction ds with
  | nil => simp [parseDigits, Nat.ofDigits_nil]
  | cons d ds ih =>
    rw [List.map_cons, List.reverse_cons, parseDigits_append_singleton,
      ih (fun x hx => h x (by simp [hx])), digitVal_digitChar d (h d (by simp)),
      Nat.ofDigits_cons]
    omega

theorem natToChars_digits (n : Nat) : ∀ c ∈ natToChars n, c.isDigit = true := by
  unfold natToChars
  by_cases hn : (n == 0) = true
  · rw [if_pos hn]
    intro c hc
    simp at hc
    rw [hc]
    rfl
  · rw [if_neg hn]
    intro c hc
    rw [List.mem_reverse] at hc
    rcases List.mem_map.mp hc with ⟨d, hd, rfl⟩
    exact digitChar_isDigit d (Nat.digits_lt_base (by norm_num) hd)

theorem natToChars_ne_nil (n : Nat) : natToChars n ≠ [] := by
  unfold natToChars
  by_cases hn : (n == 0) = true
  · rw [if_pos hn]
    simp
  · rw [if_neg hn]
    simp only [ne_eq, List.reverse_eq_nil_iff, List.map_eq_nil_iff]
    exact Nat.digits_ne_nil_iff_ne_zero.mpr (by simpa using hn)

theorem parseDigits_natToChars (n : Nat) : parseDigits (natToChars n) = n := by
  unfold natToChars
  by_cases hn : (n == 0) = true
  · rw [if_pos hn]
    have : n = 0 := by simpa using hn
    rw [this]
    rfl
  · rw [if_neg hn]
    rw [parseDigits_rev_digits _ (fun d hd => Nat.digits_lt_base (by norm_num) hd)]
    exact Nat.ofDigits_digits 10 n

theorem filter_groupRev (l : List Char) :
    ∀ k, (groupRev l k).filter (fun c => c.isDigit || c == ',') =
      l.filter (fun c => c.isDigit || c == ',') := by
  induction l with
  | nil => intro k; cases k <;> rfl
  | cons c cs ih =>
    intro k
    cases k with
    | zero =>
      show (('.' :: c :: groupRev cs 2).filter fun c => c.isDigit || c == ',') = _
      rw [List.filter_cons, List.filter_cons, List.filter_cons]
      have hdot : ((('.' : Char).isDigit || ('.' : Char) == ',')) = false := by decide
      rw [if_neg (by rw [hdot]; exact Bool.false_ne_true)]
      by_cases hc : (c.isDigit || c == ',') = true
      · rw [if_pos hc, if_pos hc, ih 2]
      · rw [if_neg hc, if_neg hc, ih 2]
    | succ k2 =>
      show ((c :: groupRev cs k2).filter fun c => c.isDigit || c == ',') = _
      rw [List.filter_cons, List.filter_cons]
      by_cases hc : (c.isDigit || c == ',') = true
      · rw [if_pos hc, if_pos hc, ih k2]
      · rw [if_neg hc, if_neg hc, ih k2]

theorem filter_groupThousands (l : List Char) (hl : ∀ c ∈ l, c.isDigit = true) :
    (groupThousands l).filter (fun c => c.isDigit || c == ',') = l := by
  unfold groupThousands
  rw [List.filter_reverse, filter_groupRev]
  rw [List.filter_eq_self.mpr
    (fun c hc => digit_passes c (hl c (List.mem_reverse.mp hc)))]
  exact List.reverse_reverse l

theorem replaceFirstComma_append (xs ys : List Char)
    (hx : ∀ c ∈ xs, (c == ',') = false) :
    replaceFirstComma (xs ++ ',' :: ys) = xs ++ '.' :: ys := by
  induction xs with
  | nil => simp [replaceFirstComma]
  | cons c cs ih =>
    have hc := hx c (by simp)
    show replaceFirstComma (c :: (cs ++ ',' :: ys)) = c :: (cs ++ '.' :: ys)
    unfold replaceFirstComma
    rw [if_neg (by rw [hc]; exact Bool.false_ne_true)]
    rw [ih (fun x hx2 => hx x (by simp [hx2]))]

theorem takeWhile_append_stop (p : Char → Bool) (xs ys : List Char) (y : Char)
    (hx : ∀ c ∈ xs, p c = true) (hy : p y = false) :
    (xs ++ y :: ys).takeWhile p = xs ∧ (xs ++ y :: ys).dropWhile p = y :: ys := by
  induction xs with
  | nil =>
    constructor
    · rw [List.nil_append, List.takeWhile_cons, if_neg (by rw [hy]; exact Bool.false_ne_true)]
    · rw [List.nil_append, List.dropWhile_cons, if_neg (by rw [hy]; exact Bool.false_ne_true)]
  | cons c cs ih =>
    have hc := hx c (by simp)
    have ih2 := ih (fun x hx2 => hx x (by simp [hx2]))
    constructor
    · rw [List.cons_append, List.takeWhile_cons, if_pos hc, ih2.1]
    · rw [List.cons_append, List.dropWhile_cons, if_pos hc, ih2.2]

theorem takeWhile_all (p : Char → Bool) (xs : List Char) (hx : ∀ c ∈ xs, p c = true) :
    xs.takeWhile p = xs := by
  induction xs with
  | nil => rfl
  | cons c cs ih =>
    rw [List.takeWhile_cons, if_pos (hx c (by simp)), ih (fun x hx2 => hx x (by simp [hx2]))]

theorem jsParseFloat_eq (l : List Char) :
    jsParseFloat l =
      match l.dropWhile (fun c => c.isDigit) with
      | '.' :: rest2 =>
        if (l.takeWhile (fun c => c.isDigit)).isEmpty &&
            (rest2.takeWhile (fun c => c.isDigit)).isEmpty
        then none
        else some ((parseDigits (l.takeWhile (fun c => c.isDigit)) : Rat) +
          (parseDigits (rest2.takeWhile (fun c => c.isDigit)) : Rat) /
            (10 : Rat) ^ (rest2.takeWhile (fun c => c.isDigit)).length)
      | _ =>
        if (l.takeWhile (fun c => c.isDigit)).isEmpty then none
        else some ((parseDigits (l.takeWhile (fun c => c.isDigit)) : Rat)) := rfl

theorem parseDigits_pair (c1 c2 : Char) :
    parseDigits [c1, c2] = digitVal c1 * 10 + digitVal c2 := by
  show (0 * 10 + digitVal c1) * 10 + digitVal c2 = digitVal c1 * 10 + digitVal c2
  ring

theorem natToChars_isEmpty_false (n : Nat) : (natToChars n).isEmpty = false := by
  cases h : natToChars n with
  | nil => exact absurd h (natToChars_ne_nil n)
  | cons a as => rfl

theorem jsParseFloat_formatted (cents : Nat) :
    jsParseFloat (natToChars (cents / 100) ++
      '.' :: [Nat.digitChar (cents % 100 / 10), Nat.digitChar (cents % 100 % 10)]) =
      some ((cents : Rat) / 100) := by
  have hq10 : cents % 100 / 10 < 10 := by omega
  have hr10 : cents % 100 % 10 < 10 := by omega
  have hstop := takeWhile_append_stop (fun c => c.isDigit) (natToChars (cents / 100))
    [Nat.digitChar (cents % 100 / 10), Nat.digitChar (cents % 100 % 10)] '.'
    (natToChars_digits _) (by decide)
  rw [jsParseFloat_eq, hstop.1, hstop.2]
  have hfp : ([Nat.digitChar (cents % 100 / 10),
      Nat.digitChar (cents % 100 % 10)].takeWhile (fun c => c.isDigit)) =
      [Nat.digitChar (cents % 100 / 10), Nat.digitChar (cents % 100 % 10)] := by
    apply takeWhile_all
    intro c hc
    rcases List.mem_cons.mp hc with rfl | hc2
    · exact digitChar_isDigit _ hq10
    · rcases List.mem_cons.mp hc2 with rfl | hc3
      · exact digitChar_isDigit _ hr10
      · cases hc3
  show (if (natToChars (cents / 100)).isEmpty &&
      (([Nat.digitChar (cents % 100 / 10),
        Nat.digitChar (cents % 100 % 10)].takeWhile (fun c => c.isDigit))).isEmpty
    then none
    else some ((parseDigits (natToChars (cents / 100)) : Rat) +
      (parseDigits (([Nat.digitChar (cents % 100 / 10),
        Nat.digitChar (cents % 100 % 10)].takeWhile (fun c => c.isDigit))) : Rat) /
        (10 : Rat) ^ (([Nat.digitChar (cents % 100 / 10),
          Nat.digitChar (cents % 100 % 10)].takeWhile (fun c => c.isDigit))).length)) =
    some ((cents : Rat) / 100)
  rw [hfp, natToChars_isEmpty_false]
  simp only [Bool.false_and, Bool.false_eq_true, if_false]
  rw [parseDigits_natToChars, parseDigits_pair,
    digitVal_digitChar _ hq10, digitVal_digitChar _ hr10]
  have hpair : cents % 100 / 10 * 10 + cents % 100 % 10 = cents % 100 := by omega
  rw [hpair]
  have hqr : 100 * (cents / 100) + cents % 100 = cents := Nat.div_add_mod cents 100
  have hcast : (cents : Rat) =
      100 * ((cents / 100 : Nat) : Rat) + ((cents % 100 : Nat) : Rat) := by
    exact_mod_cast hqr.symm
  rw [hcast]
  norm_num
  ring

theorem parseCurrencyInput_eq (value : String) :
    parseCurrencyInput value =
      match jsParseFloat (replaceFirstComma
        (value.data.filter (fun c => c.isDigit || c == ','))) with
      | some q => q
      | none => 0 := rfl

theorem parse_of_formatted (cents : Nat) :
    parseCurrencyInput (String.mk (groupThousands (natToChars (cents / 100)) ++
      ',' :: [Nat.digitChar (cents % 100 / 10), Nat.digitChar (cents % 100 % 10)])) =
      (cents : Rat) / 100 := by
  have hq10 : cents % 100 / 10 < 10 := by omega
  have hr10 : cents % 100 % 10 < 10 := by omega
  rw [parseCurrencyInput_eq]
  have hdata : (String.mk (groupThousands (natToChars (cents / 100)) ++
      ',' :: [Nat.digitChar (cents % 100 / 10), Nat.digitChar (cents % 100 % 10)])).data =
      groupThousands (natToChars (cents / 100)) ++
      ',' :: [Nat.digitChar (cents % 100 / 10), Nat.digitChar (cents % 100 % 10)] := rfl
  rw [hdata, List.filter_append, filter_groupThousands _ (natToChars_digits _)]
  have htail : ((',' :: [Nat.digitChar (cents % 100 / 10),
      Nat.digitChar (cents % 100 % 10)]).filter (fun c => c.isDigit || c == ',')) =
      ',' :: [Nat.digitChar (cents % 100 / 10), Nat.digitChar (cents % 100 % 10)] := by
    apply List.filter_eq_self.mpr
    intro c hc
    rcases List.mem_cons.mp hc with rfl | hc2
    · decide
    · rcases List.mem_cons.mp hc2 with rfl | hc3
      · exact digit_passes _ (digitChar_isDigit _ hq10)
      · rcases List.mem_cons.mp hc3 with rfl | hc4
        · exact digit_passes _ (digitChar_isDigit _ hr10)
        · cases hc4
  rw [htail, replaceFirstComma_append _ _
    (fun c hc => digit_not_comma c (natToChars_digits _ c hc)),
    jsParseFloat_formatted]

theorem formatCurrencyInput_eq (s : String) :
    formatCurrencyInput s =
      if (s.data.filter (fun c => c.isDigit)).isEmpty then ""
      else String.mk (groupThousands
          (natToChars (parseDigits (s.data.filter (fun c => c.isDigit)) / 100)) ++
        ',' :: [Nat.digitChar (parseDigits (s.data.filter (fun c => c.isDigit)) % 100 / 10),
                Nat.digitChar (parseDigits (s.data.filter (fun c => c.isDigit)) % 100 % 10)]) :=
  rfl

theorem currency_round_trip_digits (s : String) (hne : s ≠ "")
    (hdig : ∀ c ∈ s.data, c.isDigit = true) :
    parseCurrencyInput (formatCurrencyInput s) = (parseDigits s.data : Rat) / 100 := by
  have hnonempty : s.data ≠ [] := fun h0 => hne (String.ext h0)
  have hfe : (s.data.filter (fun c => c.isDigit)).isEmpty = false := by
    rw [List.filter_eq_self.mpr hdig]
    cases h : s.data with
    | nil => exact absurd h hnonempty
    | cons a as => rfl
  rw [formatCurrencyInput_eq, if_neg (by rw [hfe]; exact Bool.false_ne_true)]
  rw [List.filter_eq_self.mpr hdig]
  exact parse_of_formatted (parseDigits s.data)

theorem jsParseFloat_dot_none (rest : List Char)
    (h2 : rest.takeWhile (fun c => c.isDigit) = []) :
    jsParseFloat ('.' :: rest) = none := by
  rw [jsParseFloat_eq]
  have hds : ('.' : Char).isDigit = false := by decide
  have hdw : ('.' :: rest).dropWhile (fun c => c.isDigit) = '.' :: rest := by
    rw [List.dropWhile_cons, if_neg (by rw [hds]; exact Bool.false_ne_true)]
  rw [hdw]
  simp [List.takeWhile_cons, hds, h2]

theorem parse_no_digits (s : String) (h : ∀ c ∈ s.data, c.isDigit = false) :
    parseCurrencyInput s = 0 := by
  rw [parseCurrencyInput_eq]
  have hcl : ∀ c ∈ s.data.filter (fun c => c.isDigit || c == ','), c = ',' := by
    intro c hc
    rcases List.mem_filter.mp hc with ⟨hcm, hcp⟩
    have hcp2 : c.isDigit = true ∨ (c == ',') = true := by simpa using hcp
    rcases hcp2 with hd | hcq
    · exact absurd hd (by rw [h c hcm]; exact Bool.false_ne_true)
    · exact eq_of_beq hcq
  cases hcle : s.data.filter (fun c => c.isDigit || c == ',') with
  | nil => rfl
  | cons c rest =>
    have hc : c = ',' := hcl c (by rw [hcle]; simp)
    have hrest : ∀ x ∈ rest, x = ',' := fun x hx => hcl x (by rw [hcle]; simp [hx])
    subst hc
    have hrep : replaceFirstComma (',' :: rest) = '.' :: rest := by
      unfold replaceFirstComma
      rw [if_pos (by decide)]
    have htw2 : rest.takeWhile (fun c => c.isDigit) = [] := by
      cases hr : rest with
      | nil => rfl
      | cons x xs =>
        have hx : x = ',' := hrest x (by rw [hr]; simp)
        subst hx
        rw [List.takeWhile_cons, if_neg (by decide)]
    rw [hrep, jsParseFloat_dot_none rest htw2]

/-- C10: for every non-empty string of decimal digits, parsing the
pt-BR formatted rendering recovers the integer value of the digits
divided by 100, and parseCurrencyInput is total, returning 0 on every
input that contains no digit. -/
theorem currency_format_parse_round_trip :
    (∀ s : String, s ≠ "" → (∀ c ∈ s.data, c.isDigit = true) →
      parseCurrencyInput (formatCurrencyInput s) = (parseDigits s.data : Rat) / 100) ∧
    (∀ s : String, (∀ c ∈ s.data, c.isDigit = false) → parseCurrencyInput s = 0) :=
  ⟨currency_round_trip_digits, parse_no_digits⟩

theorem currency_format_parse_round_trip_witness :
    parseCurrencyInput (formatCurrencyInput "123456") =
      (parseDigits "123456".data : Rat) / 100 ∧
    parseCurrencyInput "R$ ,," = 0 :=
  ⟨currency_format_parse_round_trip.1 "123456" (by decide) (by decide),
   currency_format_parse_round_trip.2 "R$ ,," (by decide)⟩
